import Mathlib

/-!
Shallow embedding of the `command` TypeScript library (`src/index.ts`):
a command-line argument dispatcher.  The embedding follows the source
file function by function:

* the three regular expressions `COMMAND_NAME_REGEXP`,
  `COMMAND_ARGUMENT_NAME_REGEXP`, `COMMAND_ARGUMENT_SHORTHAND_REGEXP`
  become the matchers `matchesCommandName`, `matchLongForm`,
  `matchShorthand`;
* `RawArguments` (a JS object mapping argument names to a raw string or
  `null`) becomes an insertion-ordered association list with JS-object
  assignment semantics (`RawArgs.set`);
* `getCommandName`, `getCommandLineArguments`, `getRawArguments`,
  `getCommandParameters`, `getCommandConfig` and `getCommandExecutable`
  are translated one by one; thrown `Error`s become `Except String`.

JS numbers only appear through the builtin `Number()` conversion, whose
floating-point semantics the source does not implement; the embedding is
parametric in the number type `Num` and in the partial parse function
`parseNumber : String → Option Num` (`none` models a NaN result, which
the source rejects).
-/

set_option maxRecDepth 8192

namespace Command

/-- A character of the class `[a-zA-Z0-9_-]`, the tail class of all three
name patterns in the source regexps. -/
def isNameChar (c : Char) : Bool :=
  c.isAlphanum || c == '_' || c == '-'

/-- JS regexp `.` (no `s` flag): any character except a line terminator
(`\n`, `\r`, U+2028, U+2029). -/
def isDotChar (c : Char) : Bool :=
  !(c == '\n' || c == '\r' || c.toNat == 0x2028 || c.toNat == 0x2029)

/-- `COMMAND_NAME_REGEXP = /^[a-zA-Z](?:[a-zA-Z0-9_-]*)?$/`: full-string
match. -/
def matchesCommandName (s : String) : Bool :=
  match s.data with
  | [] => false
  | c :: cs => c.isAlpha && cs.all isNameChar

/-- `COMMAND_ARGUMENT_NAME_REGEXP = /^--([a-zA-Z0-9](?:[a-zA-Z0-9_-]*)?)(?:=(.+))?$/`.
Returns `some (name, some value)` for the `--name=value` shape,
`some (name, none)` for the bare `--name` shape, `none` on no match.
The name group is the maximal run of name characters (the class excludes
`=`, so greedy matching is exact), and the optional value group is `.+`
anchored to the end of the token. -/
def matchLongForm (s : String) : Option (String × Option String) :=
  match s.data with
  | '-' :: '-' :: c :: cs =>
    if c.isAlphanum then
      let rest := List.span isNameChar cs
      let name := String.mk (c :: rest.1)
      match rest.2 with
      | [] => some (name, none)
      | '=' :: v =>
        if v ≠ [] && v.all isDotChar then some (name, some (String.mk v)) else none
      | _ => none
    else none
  | _ => none

/-- `COMMAND_ARGUMENT_SHORTHAND_REGEXP = /^-([a-zA-Z0-9](?:[a-zA-Z0-9_-]*)?)$/`.
Returns the captured name on a full-string match. -/
def matchShorthand (s : String) : Option String :=
  match s.data with
  | '-' :: c :: cs =>
    if c.isAlphanum && cs.all isNameChar then some (String.mk (c :: cs)) else none
  | _ => none

/-- `commandLineArg.match(COMMAND_ARGUMENT_NAME_REGEXP) ?? commandLineArg.match(COMMAND_ARGUMENT_SHORTHAND_REGEXP)`:
the long form is tried first; a shorthand match has no value group, so
its `matches[2]` is always `undefined`. -/
def matchArgToken (s : String) : Option (String × Option String) :=
  match matchLongForm s with
  | some r => some r
  | none =>
    match matchShorthand s with
    | some n => some (n, none)
    | none => none

/-- A string-keyed JS object with insertion-ordered unique keys: the
shape of both `RawArguments` and the `commandParameters` result. -/
abbrev JSObj (α : Type) : Type := List (String × α)

/-- JS property read `m[k]`: `none` models `undefined` (key absent). -/
def JSObj.get {α : Type} : JSObj α → String → Option α
  | [], _ => none
  | p :: rest, k => if p.1 == k then some p.2 else JSObj.get rest k

/-- JS property assignment `m[k] = v`: overwrites the value of an
existing key in place (keeping its insertion position) or appends a new
entry. -/
def JSObj.set {α : Type} : JSObj α → String → α → JSObj α
  | [], k, v => [(k, v)]
  | p :: rest, k, v => if p.1 == k then (k, v) :: rest else p :: JSObj.set rest k v

/-- `Object.keys(m)` in insertion order. -/
def JSObj.keys {α : Type} (m : JSObj α) : List String :=
  List.map Prod.fst m

/-- The `RawArguments` interface `{[name: string]: string | null}`:
an insertion-ordered JS object.  `some s` is a raw string value, `none`
is the explicit `null` no-value marker. -/
abbrev RawArgs : Type := JSObj (Option String)

/-- The empty `RawArguments` object `{}`. -/
def RawArgs.empty : RawArgs := []

/-- The body of the `reduce` in `getRawArguments`, threading the mutable
`skipNextArg` flag and the element index.  `all` is the full
`commandLineArguments` array, used for the `commandLineArguments[index + 1]`
lookahead; the first list argument is the suffix still to be reduced.
`Invalid argument` errors thrown inside the callback abort the reduce. -/
def rawArgsFold (all : List String) :
    List String → Nat → Bool → RawArgs → Except String RawArgs
  | [], _, _, result => .ok result
  | commandLineArg :: rest, index, skipNextArg, result =>
    if skipNextArg then
      rawArgsFold all rest (index + 1) false result
    else
      match matchArgToken commandLineArg with
      | none => .error ("Invalid argument: " ++ commandLineArg)
      | some (name, some value) =>
        rawArgsFold all rest (index + 1) skipNextArg (result.set name (some value))
      | some (name, none) =>
        match all.get? (index + 1) with
        | some next =>
          if (matchLongForm next).isNone && (matchShorthand next).isNone then
            rawArgsFold all rest (index + 1) true (result.set name (some next))
          else
            rawArgsFold all rest (index + 1) skipNextArg (result.set name none)
        | none =>
          rawArgsFold all rest (index + 1) skipNextArg (result.set name none)

/-- `getRawArguments`: parse the sliced command-line arguments into a
`RawArguments` object, or throw `Invalid argument: <token>`. -/
def getRawArguments (commandLineArguments : List String) : Except String RawArgs :=
  rawArgsFold commandLineArguments commandLineArguments 0 false RawArgs.empty

/-- `getCommandName`: element 2 of `argv` is the command name if it
matches the command-name pattern; `"default"` if it is absent or matches
one of the two argument patterns; otherwise the call throws. -/
def getCommandName (argv : List String) : Except String String :=
  match argv.get? 2 with
  | some a =>
    if matchesCommandName a then .ok a
    else if (matchLongForm a).isSome || (matchShorthand a).isSome then .ok "default"
    else .error "No command name provided."
  | none => .ok "default"

/-- `getCommandLineArguments`: slice `argv` from index 2 when the command
name is `"default"` (nothing was consumed as a name), from index 3
otherwise. -/
def getCommandLineArguments (argv : List String) (commandName : String) : List String :=
  if commandName == "default" then argv.drop 2 else argv.drop 3

/-- The `type` tag of a parameter configuration:
`"number" | "string" | "boolean"`. -/
inductive ParamType : Type
  | number
  | string
  | boolean
deriving DecidableEq, Repr

/-- A `CommandParameter | null` value: `boolean | number | string`, or the
`null` optionality marker.  `Num` is the JS number type. -/
inductive Value (Num : Type) : Type
  | bool (b : Bool)
  | num (n : Num)
  | str (s : String)
  | null
deriving DecidableEq, Repr

/-- The `AbstractParameter` configuration interface.  `defaultValue = none`
models an absent (`undefined`) property; `some .null` models the explicit
`null` optionality marker. -/
structure Parameter (Num : Type) : Type where
  type : ParamType
  defaultValue : Option (Value Num) := none
  shorthand : Option String := none
  description : Option String := none

/-- A `Parameters<CommandParameters>` configuration object: insertion-ordered
unique-keyed, as traversed by `Object.entries`. -/
abbrev ParamsConfig (Num : Type) : Type := List (String × Parameter Num)

/-- A `CommandParameters` result object being populated. -/
abbrev Params (Num : Type) : Type := JSObj (Value Num)

/-- The nine recognized boolean tokens (lines 284 and 290 of the source). -/
def trueTokens : List String := ["true", "yes", "y", "on", "1"]

/-- The five false-valued boolean tokens. -/
def falseTokens : List String := ["false", "no", "n", "off", "0"]

/-- The JS builtin `rawArgument.toLowerCase()`, modelled character by
character over the ASCII range (the only range the nine ASCII token
comparisons can distinguish). -/
def jsToLowerCase (s : String) : String := String.mk (s.data.map Char.toLower)

/-- The body of the `filter` callback in `getCommandParameters`, acting on
one declared parameter: seed booleans to `false`, apply `defaultValue`,
coerce a present raw string value per the `type` tag (throwing on a failed
coercion), and return the updated `commandParameters` object.  The
`rawArgument` argument is `rawArguments[parameterName]`.

Lines 320–322 of the source read
`if (rawArgument === null && parameter.type === "boolean") { commandParameters[parameterName] === true; }`:
the body is a comparison expression, not an assignment, so that branch has
no effect and is embedded as the identity. -/
def processParameter {Num : Type} (parseNumber : String → Option Num)
    (commandParameters : Params Num) (parameterName : String) (parameter : Parameter Num)
    (rawArgument : Option (Option String)) : Except String (Params Num) :=
  let seeded :=
    if parameter.type = .boolean then
      commandParameters.set parameterName (.bool false)
    else commandParameters
  let defaulted :=
    match parameter.defaultValue with
    | some v => seeded.set parameterName v
    | none => seeded
  match rawArgument with
  | some (some raw) =>
    match parameter.type with
    | .boolean =>
      if trueTokens.contains (jsToLowerCase raw) then
        .ok (defaulted.set parameterName (.bool true))
      else if falseTokens.contains (jsToLowerCase raw) then
        .ok (defaulted.set parameterName (.bool false))
      else
        .error ("Invalid boolean value provided for parameter " ++ parameterName ++ ": " ++ raw)
    | .number =>
      match parseNumber raw with
      | some n => .ok (defaulted.set parameterName (.num n))
      | none =>
        .error ("Invalid numeric value provided for parameter " ++ parameterName ++ ": " ++ raw)
    | .string => .ok (defaulted.set parameterName (.str raw))
  | _ => .ok defaulted

/-- The `filter` pass of `getCommandParameters` over `Object.entries` of the
parameters configuration: builds `commandParameters` and collects the
`missingArguments` names (those whose entry is still `undefined` after
their own step).  A thrown coercion error aborts the pass. -/
def resolveParams {Num : Type} (parseNumber : String → Option Num) :
    ParamsConfig Num → RawArgs → Params Num → List String →
    Except String (Params Num × List String)
  | [], _, commandParameters, missing => .ok (commandParameters, missing)
  | (parameterName, parameter) :: entries, rawArguments, commandParameters, missing => do
    let updated ← processParameter parseNumber commandParameters parameterName parameter
      (rawArguments.get parameterName)
    let missing :=
      if (updated.get parameterName).isNone then missing ++ [parameterName] else missing
    resolveParams parseNumber entries rawArguments updated missing

/-- `getCommandParameters`: resolve the raw arguments against the
parameters configuration.  Both the `missingArguments` and the
`unknownArguments` lists are fully computed before any validation throw;
the missing-arguments error is thrown first, then the unknown-arguments
error. -/
def getCommandParameters {Num : Type} (parseNumber : String → Option Num)
    (commandParametersConfig : ParamsConfig Num) (rawArguments : RawArgs) :
    Except String (Params Num) := do
  let (commandParameters, missingArguments) ←
    resolveParams parseNumber commandParametersConfig rawArguments [] []
  let unknownArguments := rawArguments.keys.filter
    (fun argName => !(List.map Prod.fst commandParametersConfig).contains argName)
  if missingArguments.length > 0 then
    .error ("Missing arguments: " ++ String.intercalate ", " missingArguments)
  else if unknownArguments.length > 0 then
    .error ("Unknown arguments: " ++ String.intercalate ", " unknownArguments)
  else
    .ok commandParameters

/-- An `AbstractCommandConfig`: a parameters configuration plus the
handler function.  `R` is the handler's (opaque) result type. -/
structure CommandConfig (Num R : Type) : Type where
  parameters : ParamsConfig Num
  command : Params Num → R
  description : Option String := none

/-- The `CommandConfigs` registry, insertion-ordered with unique keys. -/
abbrev CommandConfigs (Num R : Type) : Type := List (String × CommandConfig Num R)

/-- `getCommandConfig`: registry lookup, throwing `Unknown command` when
the name has no entry. -/
def getCommandConfig {Num R : Type} (commandConfigs : CommandConfigs Num R)
    (commandName : String) : Except String (CommandConfig Num R) :=
  match (List.find? (fun p => p.1 == commandName) commandConfigs).map Prod.snd with
  | none => .error ("Unknown command: " ++ commandName)
  | some commandConfig => .ok commandConfig

/-- `getCommandExecutable`: the dispatch pipeline.  Resolves the command
name, slices the arguments, looks up the configuration, tokenizes, resolves
parameters, and returns the handler bound to the resolved parameters as a
zero-argument callable (`commandConfig.command.bind(null, commandParameters)`).
Any thrown error aborts the pipeline before the executable is built. -/
def getCommandExecutable {Num R : Type} (parseNumber : String → Option Num)
    (commandConfigs : CommandConfigs Num R) (argv : List String) :
    Except String (Unit → R) := do
  let commandName ← getCommandName argv
  let commandLineArguments := getCommandLineArguments argv commandName
  let commandConfig ← getCommandConfig commandConfigs commandName
  let rawArguments ← getRawArguments commandLineArguments
  let commandParameters ← getCommandParameters parseNumber commandConfig.parameters rawArguments
  .ok (fun _ => commandConfig.command commandParameters)

/-- The tokenizer algorithm as §4.2 of the specification words it: scan
left to right; a token matching neither argument pattern is an immediate
error; a long-form token with `=value` records that value; a valueless
token whose successor exists and matches neither pattern consumes that
successor as its value and skips it on the next scan step; otherwise the
token is recorded with the no-value marker.  Used as the refinement
target for `getRawArguments`. -/
def tokenizeSpec : List String → RawArgs → Except String RawArgs
  | [], result => .ok result
  | tok :: rest, result =>
    match matchArgToken tok with
    | none => .error ("Invalid argument: " ++ tok)
    | some (name, some value) => tokenizeSpec rest (result.set name (some value))
    | some (name, none) =>
      match rest with
      | next :: rest2 =>
        if (matchLongForm next).isNone && (matchShorthand next).isNone then
          tokenizeSpec rest2 (result.set name (some next))
        else
          tokenizeSpec (next :: rest2) (result.set name none)
      | [] => tokenizeSpec [] (result.set name none)

/-- The first token of the scan that is malformed (matches neither
argument pattern) and is not consumed as the value of the preceding
valueless argument token, following the tokenizer's lookahead-and-skip
rule; `none` when every scanned token is well-formed. -/
def firstBad : List String → Option String
  | [] => none
  | tok :: rest =>
    match matchArgToken tok with
    | none => some tok
    | some (_, some _) => firstBad rest
    | some (_, none) =>
      match rest with
      | next :: rest2 =>
        if (matchLongForm next).isNone && (matchShorthand next).isNone then
          firstBad rest2
        else
          firstBad (next :: rest2)
      | [] => none

/-- The ordered sequence of `(name, value)` bindings the scan produces,
one per argument token, in scan order (empty from the first malformed
token on). -/
def bindingList : List String → List (String × Option String)
  | [] => []
  | tok :: rest =>
    match matchArgToken tok with
    | none => []
    | some (name, some value) => (name, some value) :: bindingList rest
    | some (name, none) =>
      match rest with
      | next :: rest2 =>
        if (matchLongForm next).isNone && (matchShorthand next).isNone then
          (name, some next) :: bindingList rest2
        else
          (name, none) :: bindingList (next :: rest2)
      | [] => [(name, none)]

theorem JSObj.get_set_self {α : Type} (m : JSObj α) (k : String) (v : α) :
    (m.set k v).get k = some v := by
  induction m with
  | nil => simp [JSObj.set, JSObj.get]
  | cons p rest ih =>
    by_cases h : p.1 = k
    · simp [JSObj.set, JSObj.get, h]
    · simp [JSObj.set, JSObj.get, h, ih]

theorem JSObj.get_set_ne {α : Type} (m : JSObj α) {k k' : String} (v : α) (h : k' ≠ k) :
    (m.set k v).get k' = m.get k' := by
  induction m with
  | nil => simp [JSObj.set, JSObj.get, Ne.symm h]
  | cons p rest ih =>
    by_cases hp : p.1 = k
    · simp [JSObj.set, JSObj.get, hp, Ne.symm h]
    · by_cases hp' : p.1 = k'
      · simp [JSObj.set, JSObj.get, hp, hp', h]
      · simp [JSObj.set, JSObj.get, hp, hp', ih]

theorem JSObj.mem_keys_set {α : Type} (m : JSObj α) (k a : String) (v : α) :
    a ∈ (m.set k v).keys ↔ a ∈ m.keys ∨ a = k := by
  induction m with
  | nil => simp [JSObj.set, JSObj.keys]
  | cons p rest ih =>
    by_cases h : p.1 = k
    · simp only [JSObj.set, JSObj.keys] at *
      simp [h]
      tauto
    · simp only [JSObj.set, JSObj.keys] at *
      simp [h, ih]
      tauto

theorem JSObj.get_isSome_iff {α : Type} (m : JSObj α) (k : String) :
    (m.get k).isSome = true ↔ k ∈ m.keys := by
  induction m with
  | nil => simp [JSObj.get, JSObj.keys]
  | cons p rest ih =>
    by_cases h : p.1 = k
    · simp [JSObj.get, JSObj.keys, h]
    · simp [JSObj.get, JSObj.keys, h, ih, Ne.symm h]

theorem List.get?_eq_head?_drop {α : Type} (l : List α) (n : Nat) :
    l.get? n = (l.drop n).head? := by
  induction l generalizing n with
  | nil => simp
  | cons a l ih =>
    cases n with
    | zero => simp
    | succ n => simp

/-- A string matching either argument-flag pattern starts with `-` and so
cannot match the command-name pattern, which requires a letter first. -/
theorem matchesCommandName_eq_false_of_arg (a : String) :
    (matchLongForm a).isSome = true ∨ (matchShorthand a).isSome = true →
    matchesCommandName a = false := by
  intro h
  match ha : a.data with
  | [] =>
    rw [matchLongForm, matchShorthand, ha] at h
    simp at h
  | c :: cs =>
    rw [matchLongForm, matchShorthand, ha] at h
    match hc : c, hcs : cs with
    | '-', _ => rw [matchesCommandName, ha]; simp [hc]
    | c, cs =>
      rcases h with h | h
      · by_cases hdash : c = '-'
        · rw [matchesCommandName, ha]; simp [hdash]
        · exfalso
          rcases c with ⟨cv, _⟩
          revert h
          split <;> simp_all
      · by_cases hdash : c = '-'
        · rw [matchesCommandName, ha]; simp [hdash]
        · exfalso
          rcases c with ⟨cv, _⟩
          revert h
          split <;> simp_all

/-- C1: the source's no-value boolean branch (line 321,
`commandParameters[parameterName] === true;`) is a comparison with no
effect, so a declared boolean parameter supplied as a bare `--flag`
resolves to the seeded `false`, not `true`: the resolver succeeds with
`flag = false` on a schema `{flag: {type: "boolean"}}` and raw arguments
`{flag: null}`. -/
theorem boolean_no_value_flag_resolves_to_false :
    getCommandParameters (fun _ => (none : Option Int))
      [("flag", { type := ParamType.boolean })] [("flag", none)] =
      Except.ok [("flag", Value.bool false)] := rfl

/-- C4 counterexample: the literal string `"default"` matches the
command-name pattern and is consumed as an explicit command name, yet
`getCommandLineArguments` slices from index 2 — the explicit name itself
stays in the remaining arguments, so for a present, command-name-matching
element at index 2 the remaining arguments do not always start at
index 3. -/
theorem explicit_default_name_keeps_index_two :
    matchesCommandName "default" = true ∧
    getCommandName ["node", "bin", "default", "--a=1"] = Except.ok "default" ∧
    getCommandLineArguments ["node", "bin", "default", "--a=1"] "default" =
      ["default", "--a=1"] ∧
    getCommandLineArguments ["node", "bin", "default", "--a=1"] "default" ≠
      List.drop 3 ["node", "bin", "default", "--a=1"] := by
  refine ⟨by decide, rfl, rfl, by decide⟩

/-- C4 (amended): element 2 of the argument vector resolves the command
name: absent, or matching an argument-flag pattern, gives `"default"`
with the remaining arguments starting at index 2; present and matching
the command-name pattern gives that element as the name, with remaining
arguments starting at index 3 unless that name is the literal
`"default"`, in which case they start at index 2; present and matching
neither pattern is the `No command name provided` error, not a silent
fallback. -/
theorem getCommandName_cases (argv : List String) :
    (argv.get? 2 = none → getCommandName argv = Except.ok "default") ∧
    (∀ a, argv.get? 2 = some a →
      ((matchLongForm a).isSome = true ∨ (matchShorthand a).isSome = true) →
      getCommandName argv = Except.ok "default") ∧
    (∀ a, argv.get? 2 = some a → matchesCommandName a = true →
      getCommandName argv = Except.ok a) ∧
    (∀ a, argv.get? 2 = some a → matchesCommandName a = false →
      (matchLongForm a).isNone = true → (matchShorthand a).isNone = true →
      getCommandName argv = Except.error "No command name provided.") ∧
    getCommandLineArguments argv "default" = argv.drop 2 ∧
    (∀ name, name ≠ "default" → getCommandLineArguments argv name = argv.drop 3) := by
  refine ⟨?_, ?_, ?_, ?_, ?_, ?_⟩
  · intro h
    rw [List.get?_eq_getElem?] at h
    simp [getCommandName, h]
  · intro a ha hm
    have hname := matchesCommandName_eq_false_of_arg a hm
    rw [List.get?_eq_getElem?] at ha
    rcases hm with hm | hm <;> simp [getCommandName, ha, hname, hm]
  · intro a ha hm
    rw [List.get?_eq_getElem?] at ha
    simp [getCommandName, ha, hm]
  · intro a ha hm h1 h2
    rw [List.get?_eq_getElem?] at ha
    simp only [Option.isNone_iff_eq_none] at h1 h2
    simp [getCommandName, ha, hm, h1, h2]
  · simp [getCommandLineArguments]
  · intro name hname
    simp [getCommandLineArguments, hname]

/-- C4 witness: a concrete instance of each branch of
`getCommandName_cases`. -/
theorem getCommandName_cases_witness :
    getCommandName ["node", "bin", "--count=3"] = Except.ok "default" ∧
    getCommandName ["node", "bin", "greet", "--a"] = Except.ok "greet" ∧
    getCommandName ["node", "bin", "=bad"] = Except.error "No command name provided." ∧
    getCommandLineArguments ["node", "bin", "greet", "--a"] "greet" = ["--a"] := by
  refine ⟨?_, ?_, ?_, ?_⟩
  · exact (getCommandName_cases _).2.1 "--count=3" rfl (Or.inl (by decide))
  · exact (getCommandName_cases _).2.2.1 "greet" rfl (by decide)
  · exact (getCommandName_cases _).2.2.2.1 "=bad" rfl (by decide) (by decide) (by decide)
  · exact (getCommandName_cases _).2.2.2.2.2 "greet" (by decide)

theorem List.drop_succ_eq_tail_drop {α : Type} (l : List α) (i : Nat) :
    l.drop (i + 1) = (l.drop i).tail := by
  induction l generalizing i with
  | nil => simp
  | cons a l ih =>
    cases i with
    | zero => simp
    | succ i => simp

theorem rawArgsFold_skip (all rest : List String) (tok : String) (index : Nat)
    (acc : RawArgs) :
    rawArgsFold all (tok :: rest) index true acc = rawArgsFold all rest (index + 1) false acc := by
  simp [rawArgsFold]

theorem rawArgsFold_malformed {tok : String} (all rest : List String) (index : Nat)
    (acc : RawArgs) (h : matchArgToken tok = none) :
    rawArgsFold all (tok :: rest) index false acc =
      Except.error ("Invalid argument: " ++ tok) := by
  simp [rawArgsFold, h]

theorem rawArgsFold_value {tok name value : String} (all rest : List String) (index : Nat)
    (acc : RawArgs) (h : matchArgToken tok = some (name, some value)) :
    rawArgsFold all (tok :: rest) index false acc =
      rawArgsFold all rest (index + 1) false (acc.set name (some value)) := by
  simp [rawArgsFold, h]

theorem rawArgsFold_flag_consume {tok name next : String} (all rest : List String)
    (index : Nat) (acc : RawArgs) (h : matchArgToken tok = some (name, none))
    (hn : all.get? (index + 1) = some next)
    (h1 : matchLongForm next = none) (h2 : matchShorthand next = none) :
    rawArgsFold all (tok :: rest) index false acc =
      rawArgsFold all rest (index + 1) true (acc.set name (some next)) := by
  rw [List.get?_eq_getElem?] at hn
  simp [rawArgsFold, h, hn, h1, h2]

theorem rawArgsFold_flag_next_matches {tok name next : String} (all rest : List String)
    (index : Nat) (acc : RawArgs) (h : matchArgToken tok = some (name, none))
    (hn : all.get? (index + 1) = some next)
    (hnot : ¬(matchLongForm next = none ∧ matchShorthand next = none)) :
    rawArgsFold all (tok :: rest) index false acc =
      rawArgsFold all rest (index + 1) false (acc.set name none) := by
  rw [List.get?_eq_getElem?] at hn
  simp [rawArgsFold, h, hn, hnot]

theorem rawArgsFold_flag_end {tok name : String} (all rest : List String)
    (index : Nat) (acc : RawArgs) (h : matchArgToken tok = some (name, none))
    (hn : all.get? (index + 1) = none) :
    rawArgsFold all (tok :: rest) index false acc =
      rawArgsFold all rest (index + 1) false (acc.set name none) := by
  rw [List.get?_eq_getElem?] at hn
  simp [rawArgsFold, h, hn]

theorem tokenizeSpec_malformed {tok : String} (rest : List String) (acc : RawArgs)
    (h : matchArgToken tok = none) :
    tokenizeSpec (tok :: rest) acc = Except.error ("Invalid argument: " ++ tok) := by
  simp [tokenizeSpec, h]

theorem tokenizeSpec_value {tok name value : String} (rest : List String) (acc : RawArgs)
    (h : matchArgToken tok = some (name, some value)) :
    tokenizeSpec (tok :: rest) acc = tokenizeSpec rest (acc.set name (some value)) := by
  simp [tokenizeSpec, h]

theorem tokenizeSpec_flag_consume {tok name next : String} (rest2 : List String) (acc : RawArgs)
    (h : matchArgToken tok = some (name, none))
    (h1 : matchLongForm next = none) (h2 : matchShorthand next = none) :
    tokenizeSpec (tok :: next :: rest2) acc = tokenizeSpec rest2 (acc.set name (some next)) := by
  simp [tokenizeSpec, h, h1, h2]

theorem tokenizeSpec_flag_next_matches {tok name next : String} (rest2 : List String)
    (acc : RawArgs) (h : matchArgToken tok = some (name, none))
    (hnot : ¬(matchLongForm next = none ∧ matchShorthand next = none)) :
    tokenizeSpec (tok :: next :: rest2) acc = tokenizeSpec (next :: rest2) (acc.set name none) := by
  conv_lhs => rw [tokenizeSpec]
  simp only [h]
  rw [if_neg (by simpa using hnot)]

theorem tokenizeSpec_flag_end {tok name : String} (acc : RawArgs)
    (h : matchArgToken tok = some (name, none)) :
    tokenizeSpec [tok] acc = Except.ok (acc.set name none) := by
  simp [tokenizeSpec, h]

/-- The indexed reduce with the `skipNextArg` flag computes the same
result as the specification's left-to-right scan, on any suffix of the
argument list. -/
theorem rawArgsFold_eq_tokenizeSpec :
    ∀ (n : Nat) (rest : List String), rest.length ≤ n →
    ∀ (all : List String) (index : Nat) (acc : RawArgs),
      all.drop index = rest →
      rawArgsFold all rest index false acc = tokenizeSpec rest acc := by
  intro n
  induction n with
  | zero =>
    intro rest hlen all index acc hdrop
    have : rest = [] := List.eq_nil_of_length_eq_zero (Nat.le_zero.mp hlen)
    subst this
    simp [rawArgsFold, tokenizeSpec]
  | succ n ih =>
    intro rest hlen all index acc hdrop
    match rest, hlen with
    | [], _ => simp [rawArgsFold, tokenizeSpec]
    | tok :: rest1, hlen =>
      have hdrop1 : all.drop (index + 1) = rest1 := by
        rw [List.drop_succ_eq_tail_drop, hdrop]
        rfl
      have hnext : all.get? (index + 1) = rest1.head? := by
        rw [List.get?_eq_head?_drop, hdrop1]
      have hlen1 : rest1.length ≤ n := by
        simpa using Nat.le_of_succ_le_succ hlen
      cases hmt : matchArgToken tok with
      | none =>
        rw [rawArgsFold_malformed all rest1 index acc hmt,
          tokenizeSpec_malformed rest1 acc hmt]
      | some nv =>
        obtain ⟨name, val⟩ := nv
        cases val with
        | some value =>
          rw [rawArgsFold_value all rest1 index acc hmt,
            tokenizeSpec_value rest1 acc hmt]
          exact ih rest1 hlen1 all (index + 1) _ hdrop1
        | none =>
          cases rest1 with
          | nil =>
            have hnone : all.get? (index + 1) = none := by rw [hnext]; rfl
            rw [rawArgsFold_flag_end all [] index acc hmt hnone,
              tokenizeSpec_flag_end acc hmt]
            simp [rawArgsFold]
          | cons next rest2 =>
            have hnext' : all.get? (index + 1) = some next := by rw [hnext]; rfl
            have hdrop2 : all.drop (index + 1 + 1) = rest2 := by
              rw [List.drop_succ_eq_tail_drop, hdrop1]
              rfl
            have hlen2 : rest2.length ≤ n := by
              simp at hlen1
              omega
            by_cases hb : matchLongForm next = none ∧ matchShorthand next = none
            · rw [rawArgsFold_flag_consume all (next :: rest2) index acc hmt hnext' hb.1 hb.2,
                rawArgsFold_skip, tokenizeSpec_flag_consume rest2 acc hmt hb.1 hb.2]
              exact ih rest2 hlen2 all (index + 1 + 1) _ hdrop2
            · rw [rawArgsFold_flag_next_matches all (next :: rest2) index acc hmt hnext' hb,
                tokenizeSpec_flag_next_matches rest2 acc hmt hb]
              exact ih (next :: rest2) hlen1 all (index + 1) _ hdrop1

theorem getRawArguments_spec (commandLineArguments : List String) :
    getRawArguments commandLineArguments = tokenizeSpec commandLineArguments RawArgs.empty :=
  rawArgsFold_eq_tokenizeSpec commandLineArguments.length commandLineArguments
    (Nat.le_refl _) commandLineArguments 0 RawArgs.empty rfl

/-- C5: `getRawArguments` implements the specification's tokenizing scan:
a `--name=value` token records its value verbatim; a valueless `--name`
or `-x` token whose successor exists and matches neither argument pattern
records that successor as its value and skips it (the successor is never
itself tokenized or reported as malformed); any other valueless token is
recorded with the explicit no-value marker. -/
theorem getRawArguments_eq_tokenizeSpec (commandLineArguments : List String) :
    getRawArguments commandLineArguments = tokenizeSpec commandLineArguments RawArgs.empty :=
  getRawArguments_spec commandLineArguments

theorem firstBad_malformed {tok : String} (rest : List String)
    (h : matchArgToken tok = none) : firstBad (tok :: rest) = some tok := by
  cases rest with
  | nil => simp [firstBad, h]
  | cons a l => simp [firstBad, h]

theorem firstBad_value {tok name value : String} (rest : List String)
    (h : matchArgToken tok = some (name, some value)) : firstBad (tok :: rest) = firstBad rest := by
  cases rest with
  | nil => simp [firstBad, h]
  | cons a l => simp [firstBad, h]

theorem firstBad_flag_consume {tok name next : String} (rest2 : List String)
    (h : matchArgToken tok = some (name, none))
    (h1 : matchLongForm next = none) (h2 : matchShorthand next = none) :
    firstBad (tok :: next :: rest2) = firstBad rest2 := by
  simp [firstBad, h, h1, h2]

theorem firstBad_flag_next_matches {tok name next : String} (rest2 : List String)
    (h : matchArgToken tok = some (name, none))
    (hnot : ¬(matchLongForm next = none ∧ matchShorthand next = none)) :
    firstBad (tok :: next :: rest2) = firstBad (next :: rest2) := by
  conv_lhs => rw [firstBad]
  simp only [h]
  rw [if_neg (by simpa using hnot)]

theorem firstBad_flag_end {tok name : String}
    (h : matchArgToken tok = some (name, none)) : firstBad [tok] = none := by
  simp [firstBad, h]

/-- The scan fails exactly when a non-consumed malformed token exists,
with the error naming the first one; the accumulated object is
irrelevant to failure. -/
theorem tokenizeSpec_error_iff :
    ∀ (n : Nat) (args : List String), args.length ≤ n → ∀ (acc : RawArgs) (e : String),
      (tokenizeSpec args acc = Except.error e ↔
        ∃ t, firstBad args = some t ∧ e = "Invalid argument: " ++ t) := by
  intro n
  induction n with
  | zero =>
    intro args hlen acc e
    have : args = [] := List.eq_nil_of_length_eq_zero (Nat.le_zero.mp hlen)
    subst this
    simp [tokenizeSpec, firstBad]
  | succ n ih =>
    intro args hlen acc e
    match args, hlen with
    | [], _ => simp [tokenizeSpec, firstBad]
    | tok :: rest1, hlen =>
      have hlen1 : rest1.length ≤ n := by
        simpa using Nat.le_of_succ_le_succ hlen
      cases hmt : matchArgToken tok with
      | none =>
        rw [tokenizeSpec_malformed rest1 acc hmt, firstBad_malformed rest1 hmt]
        simp [eq_comm]
      | some nv =>
        obtain ⟨name, val⟩ := nv
        cases val with
        | some value =>
          rw [tokenizeSpec_value rest1 acc hmt, firstBad_value rest1 hmt]
          exact ih rest1 hlen1 _ e
        | none =>
          cases rest1 with
          | nil =>
            rw [tokenizeSpec_flag_end acc hmt, firstBad_flag_end hmt]
            simp
          | cons next rest2 =>
            have hlen2 : rest2.length ≤ n := by
              simp at hlen1
              omega
            by_cases hb : matchLongForm next = none ∧ matchShorthand next = none
            · rw [tokenizeSpec_flag_consume rest2 acc hmt hb.1 hb.2,
                firstBad_flag_consume rest2 hmt hb.1 hb.2]
              exact ih rest2 hlen2 _ e
            · rw [tokenizeSpec_flag_next_matches rest2 acc hmt hb,
                firstBad_flag_next_matches rest2 hmt hb]
              exact ih (next :: rest2) hlen1 _ e

/-- A first-bad token is a member of the list and matches neither
argument pattern. -/
theorem firstBad_mem_malformed :
    ∀ (n : Nat) (args : List String), args.length ≤ n → ∀ t, firstBad args = some t →
      t ∈ args ∧ matchArgToken t = none := by
  intro n
  induction n with
  | zero =>
    intro args hlen t ht
    have : args = [] := List.eq_nil_of_length_eq_zero (Nat.le_zero.mp hlen)
    subst this
    simp [firstBad] at ht
  | succ n ih =>
    intro args hlen t ht
    match args, hlen with
    | [], _ => simp [firstBad] at ht
    | tok :: rest1, hlen =>
      have hlen1 : rest1.length ≤ n := by
        simpa using Nat.le_of_succ_le_succ hlen
      cases hmt : matchArgToken tok with
      | none =>
        rw [firstBad_malformed rest1 hmt] at ht
        obtain rfl : tok = t := by simpa using ht
        exact ⟨List.mem_cons_self _ _, hmt⟩
      | some nv =>
        obtain ⟨name, val⟩ := nv
        cases val with
        | some value =>
          rw [firstBad_value rest1 hmt] at ht
          obtain ⟨hmem, hbad⟩ := ih rest1 hlen1 t ht
          exact ⟨List.mem_cons_of_mem _ hmem, hbad⟩
        | none =>
          cases rest1 with
          | nil =>
            rw [firstBad_flag_end hmt] at ht
            cases ht
          | cons next rest2 =>
            have hlen2 : rest2.length ≤ n := by
              simp at hlen1
              omega
            by_cases hb : matchLongForm next = none ∧ matchShorthand next = none
            · rw [firstBad_flag_consume rest2 hmt hb.1 hb.2] at ht
              obtain ⟨hmem, hbad⟩ := ih rest2 hlen2 t ht
              exact ⟨List.mem_cons_of_mem _ (List.mem_cons_of_mem _ hmem), hbad⟩
            · rw [firstBad_flag_next_matches rest2 hmt hb] at ht
              obtain ⟨hmem, hbad⟩ := ih (next :: rest2) hlen1 t ht
              exact ⟨List.mem_cons_of_mem _ hmem, hbad⟩

/-- C6: the tokenizer fails if and only if some token that is not
consumed as a preceding argument's value matches neither argument
pattern; it fails at the first such token, the error names that token
alone, and the named token is a malformed member of the list (never a
batch of several). -/
theorem getRawArguments_error_iff (commandLineArguments : List String) :
    (∀ e, getRawArguments commandLineArguments = Except.error e ↔
      ∃ t, firstBad commandLineArguments = some t ∧ e = "Invalid argument: " ++ t) ∧
    (∀ t, firstBad commandLineArguments = some t →
      t ∈ commandLineArguments ∧ matchArgToken t = none) := by
  constructor
  · intro e
    rw [getRawArguments_spec]
    exact tokenizeSpec_error_iff commandLineArguments.length commandLineArguments
      (Nat.le_refl _) RawArgs.empty e
  · exact firstBad_mem_malformed commandLineArguments.length commandLineArguments
      (Nat.le_refl _)

/-- C6 witness: on `["--a", "x", "junk"]` the successor `x` is consumed
as `--a`'s value, and the scan fails at `junk`, naming it alone. -/
theorem getRawArguments_error_iff_witness :
    getRawArguments ["--a", "x", "junk"] = Except.error "Invalid argument: junk" ∧
    ("junk" ∈ ["--a", "x", "junk"] ∧ matchArgToken "junk" = none) := by
  constructor
  · exact ((getRawArguments_error_iff ["--a", "x", "junk"]).1
      "Invalid argument: junk").mpr ⟨"junk", by decide, rfl⟩
  · exact (getRawArguments_error_iff ["--a", "x", "junk"]).2 "junk" (by decide)

theorem matchArgToken_eq_none_iff (s : String) :
    matchArgToken s = none ↔ matchLongForm s = none ∧ matchShorthand s = none := by
  cases h1 : matchLongForm s <;> cases h2 : matchShorthand s <;>
    simp [matchArgToken, h1, h2]

theorem bindingList_malformed {tok : String} (rest : List String)
    (h : matchArgToken tok = none) : bindingList (tok :: rest) = [] := by
  conv_lhs => rw [bindingList]
  simp only [h]

theorem bindingList_value {tok name value : String} (rest : List String)
    (h : matchArgToken tok = some (name, some value)) :
    bindingList (tok :: rest) = (name, some value) :: bindingList rest := by
  conv_lhs => rw [bindingList]
  simp only [h]

theorem bindingList_flag_consume {tok name next : String} (rest2 : List String)
    (h : matchArgToken tok = some (name, none))
    (h1 : matchLongForm next = none) (h2 : matchShorthand next = none) :
    bindingList (tok :: next :: rest2) = (name, some next) :: bindingList rest2 := by
  conv_lhs => rw [bindingList]
  simp only [h, h1, h2, Option.isNone_none, Bool.and_self, if_pos]

theorem bindingList_flag_next_matches {tok name next : String} (rest2 : List String)
    (h : matchArgToken tok = some (name, none))
    (hnot : ¬(matchLongForm next = none ∧ matchShorthand next = none)) :
    bindingList (tok :: next :: rest2) = (name, none) :: bindingList (next :: rest2) := by
  conv_lhs => rw [bindingList]
  simp only [h]
  rw [if_neg (by simpa using hnot)]

theorem bindingList_flag_end {tok name : String}
    (h : matchArgToken tok = some (name, none)) : bindingList [tok] = [(name, none)] := by
  conv_lhs => rw [bindingList]
  simp only [h]

/-- Appending a binding at the end of the (reversed) binding sequence has
the same effect on the final lookup as performing the corresponding
JS-object assignment on the accumulator. -/
theorem lastBinding_shift (bl : List (String × Option String)) (k : String)
    (v : Option String) (acc : RawArgs) (name : String) :
    (((bl.reverse ++ [(k, v)]).find? (fun p => p.1 == name)).map Prod.snd).or (acc.get name) =
      ((bl.reverse.find? (fun p => p.1 == name)).map Prod.snd).or ((acc.set k v).get name) := by
  rw [List.find?_append]
  cases hf : bl.reverse.find? (fun p => p.1 == name) with
  | some q => simp [Option.or]
  | none =>
    by_cases hk : k = name
    · subst hk
      simp [JSObj.get_set_self, Option.or]
    · rw [JSObj.get_set_ne acc v (Ne.symm hk)]
      have hbeq : (k == name) = false := by simpa using hk
      simp [List.find?, hbeq, Option.or]

/-- After a successful scan, looking a name up in the result is the same
as taking the value of the last binding the scan produced for that name,
falling back to the accumulator. -/
theorem tokenizeSpec_get_eq_lastBinding :
    ∀ (n : Nat) (args : List String), args.length ≤ n → ∀ (acc m : RawArgs),
      tokenizeSpec args acc = Except.ok m → ∀ (name : String),
        m.get name =
          (((bindingList args).reverse.find? (fun p => p.1 == name)).map Prod.snd).or
            (acc.get name) := by
  intro n
  induction n with
  | zero =>
    intro args hlen acc m hok name
    have : args = [] := List.eq_nil_of_length_eq_zero (Nat.le_zero.mp hlen)
    subst this
    simp only [tokenizeSpec, Except.ok.injEq] at hok
    subst hok
    simp [bindingList, List.find?, Option.or]
  | succ n ih =>
    intro args hlen acc m hok name
    match args, hlen with
    | [], _ =>
      simp only [tokenizeSpec, Except.ok.injEq] at hok
      subst hok
      simp [bindingList, List.find?, Option.or]
    | tok :: rest1, hlen =>
      have hlen1 : rest1.length ≤ n := by
        simpa using Nat.le_of_succ_le_succ hlen
      cases hmt : matchArgToken tok with
      | none =>
        rw [tokenizeSpec_malformed rest1 acc hmt] at hok
        cases hok
      | some nv =>
        obtain ⟨bname, val⟩ := nv
        cases val with
        | some value =>
          rw [tokenizeSpec_value rest1 acc hmt] at hok
          rw [bindingList_value rest1 hmt]
          rw [show ((bname, some value) :: bindingList rest1).reverse =
            (bindingList rest1).reverse ++ [(bname, some value)] from by simp]
          rw [lastBinding_shift]
          exact ih rest1 hlen1 _ m hok name
        | none =>
          cases rest1 with
          | nil =>
            rw [tokenizeSpec_flag_end acc hmt] at hok
            obtain rfl : acc.set bname none = m := by simpa using hok
            rw [bindingList_flag_end hmt]
            rw [show ([(bname, (none : Option String))]).reverse =
              ([] : List (String × Option String)).reverse ++ [(bname, none)] from by simp]
            rw [lastBinding_shift]
            simp [List.find?, Option.or]
          | cons next rest2 =>
            have hlen2 : rest2.length ≤ n := by
              simp at hlen1
              omega
            by_cases hb : matchLongForm next = none ∧ matchShorthand next = none
            · rw [tokenizeSpec_flag_consume rest2 acc hmt hb.1 hb.2] at hok
              rw [bindingList_flag_consume rest2 hmt hb.1 hb.2]
              rw [show ((bname, some next) :: bindingList rest2).reverse =
                (bindingList rest2).reverse ++ [(bname, some next)] from by simp]
              rw [lastBinding_shift]
              exact ih rest2 hlen2 _ m hok name
            · rw [tokenizeSpec_flag_next_matches rest2 acc hmt hb] at hok
              rw [bindingList_flag_next_matches rest2 hmt hb]
              rw [show ((bname, (none : Option String)) :: bindingList (next :: rest2)).reverse =
                (bindingList (next :: rest2)).reverse ++ [(bname, none)] from by simp]
              rw [lastBinding_shift]
              exact ih (next :: rest2) hlen1 _ m hok name

/-- C10: when several tokens bind the same argument name, the resulting
`RawArguments` maps the name to the binding of the later token — the
last occurrence wins — and duplicate names never cause an error: a list
whose tokens all match an argument pattern always tokenizes
successfully. -/
theorem getRawArguments_last_occurrence_wins (commandLineArguments : List String) :
    (∀ m, getRawArguments commandLineArguments = Except.ok m → ∀ name,
      m.get name =
        ((bindingList commandLineArguments).reverse.find?
          (fun p => p.1 == name)).map Prod.snd) ∧
    ((∀ t ∈ commandLineArguments, (matchArgToken t).isSome = true) →
      ∃ m, getRawArguments commandLineArguments = Except.ok m) := by
  constructor
  · intro m hok name
    rw [getRawArguments_spec] at hok
    have := tokenizeSpec_get_eq_lastBinding commandLineArguments.length
      commandLineArguments (Nat.le_refl _) RawArgs.empty m hok name
    simpa [RawArgs.empty, JSObj.get, Option.or_none] using this
  · intro hall
    cases hres : getRawArguments commandLineArguments with
    | ok m => exact ⟨m, rfl⟩
    | error e =>
      exfalso
      rw [getRawArguments_spec] at hres
      obtain ⟨t, ht, -⟩ := (tokenizeSpec_error_iff commandLineArguments.length
        commandLineArguments (Nat.le_refl _) RawArgs.empty e).mp hres
      obtain ⟨hmem, hbad⟩ := firstBad_mem_malformed commandLineArguments.length
        commandLineArguments (Nat.le_refl _) t ht
      have := hall t hmem
      rw [hbad] at this
      cases this

/-- C10 witness: `--a=1 --a=2` tokenizes successfully and `a` maps to the
later binding `"2"`. -/
theorem getRawArguments_last_occurrence_wins_witness :
    (∃ m, getRawArguments ["--a=1", "--a=2"] = Except.ok m) ∧
    JSObj.get [("a", some "2")] "a" =
      ((bindingList ["--a=1", "--a=2"]).reverse.find? (fun p => p.1 == "a")).map Prod.snd ∧
    JSObj.get [("a", some "2")] "a" = some (some "2") := by
  refine ⟨?_, ?_, rfl⟩
  · exact (getRawArguments_last_occurrence_wins ["--a=1", "--a=2"]).2 (by decide)
  · exact (getRawArguments_last_occurrence_wins ["--a=1", "--a=2"]).1
      [("a", some "2")] rfl "a"

/-- C2 counterexample: on the schema `{a: string}` (no default) with raw
arguments `{b: "1"}`, the missing set is `["a"]` and the unknown set is
`["b"]`, yet resolution throws only the missing-arguments error — the
message does not mention `b`, so the two lists are not enumerated
together in a single error. -/
theorem missing_error_omits_unknown_names :
    getCommandParameters (fun _ => (none : Option Int))
      [("a", { type := ParamType.string })] [("b", some "1")] =
      Except.error "Missing arguments: a" ∧
    resolveParams (fun _ => (none : Option Int))
      [("a", { type := ParamType.string })] [("b", some "1")] [] [] =
      Except.ok ([], ["a"]) ∧
    ("b" ∈ JSObj.keys ([("b", some "1")] : RawArgs) ∧
      "b" ∉ List.map Prod.fst [("a", ({ type := ParamType.string } : Parameter Int))]) ∧
    'b' ∉ "Missing arguments: a".data := by
  refine ⟨rfl, rfl, by decide, by decide⟩

/-- C2 (amended): the missing and unknown argument sets are both fully
computed, but they are reported in two separate errors with the missing
one thrown first: when any declared parameter is missing the resolver
fails with the `Missing arguments` error enumerating all missing names,
and only when none is missing can a non-empty unknown set fail with the
`Unknown arguments` error enumerating all unknown names. -/
theorem getCommandParameters_validation_order (Num : Type) (parseNumber : String → Option Num)
    (config : ParamsConfig Num) (raw : RawArgs) (m : Params Num) (missing : List String)
    (hres : resolveParams parseNumber config raw [] [] = Except.ok (m, missing)) :
    (missing ≠ [] →
      getCommandParameters parseNumber config raw =
        Except.error ("Missing arguments: " ++ String.intercalate ", " missing)) ∧
    (missing = [] →
      raw.keys.filter (fun argName => !(List.map Prod.fst config).contains argName) ≠ [] →
      getCommandParameters parseNumber config raw =
        Except.error ("Unknown arguments: " ++ String.intercalate ", "
          (raw.keys.filter (fun argName => !(List.map Prod.fst config).contains argName)))) ∧
    (missing = [] →
      raw.keys.filter (fun argName => !(List.map Prod.fst config).contains argName) = [] →
      getCommandParameters parseNumber config raw = Except.ok m) := by
  have hunf : getCommandParameters parseNumber config raw =
      (if 0 < missing.length then
        Except.error ("Missing arguments: " ++ String.intercalate ", " missing)
      else if 0 < (raw.keys.filter
          (fun argName => !(List.map Prod.fst config).contains argName)).length then
        Except.error ("Unknown arguments: " ++ String.intercalate ", "
          (raw.keys.filter (fun argName => !(List.map Prod.fst config).contains argName)))
      else Except.ok m) := by
    simp only [getCommandParameters, hres]
    rfl
  refine ⟨?_, ?_, ?_⟩
  · intro hmiss
    rw [hunf, if_pos (List.length_pos.mpr hmiss)]
  · intro hmiss hunk
    subst hmiss
    rw [hunf, if_neg (by simp), if_pos (List.length_pos.mpr hunk)]
  · intro hmiss hunk
    subst hmiss
    rw [hunf, if_neg (by simp), if_neg (by rw [hunk]; simp)]

/-- C2 witness: a concrete instance with both a missing and an unknown
argument, where the resolver reports the missing list alone. -/
theorem getCommandParameters_validation_order_witness :
    getCommandParameters (fun _ => (none : Option Int))
      [("a", { type := ParamType.string })] [("b", some "1")] =
      Except.error ("Missing arguments: " ++ String.intercalate ", " ["a"]) :=
  (getCommandParameters_validation_order Int (fun _ => none)
    [("a", { type := ParamType.string })] [("b", some "1")] [] ["a"] rfl).1 (by decide)

/-- C3 counterexample: the boolean coercion recognizes ten tokens, not
nine: the ten listed tokens are pairwise distinct and all of them are
accepted, so no nine-element set of strings can contain exactly the
accepted tokens. -/
theorem boolean_tokens_number_ten :
    (trueTokens ++ falseTokens).length = 10 ∧
    (trueTokens ++ falseTokens).Nodup ∧
    ¬ ∃ (nine : Finset String), nine.card = 9 ∧
      ∀ s, (processParameter (fun _ => (none : Option Int)) [] "p"
        { type := ParamType.boolean } (some (some s))).isOk = true ↔ s ∈ nine := by
  refine ⟨by decide, by decide, ?_⟩
  rintro ⟨nine, hcard, hiff⟩
  have hall : ∀ s ∈ trueTokens ++ falseTokens,
      (processParameter (fun _ => (none : Option Int)) [] "p"
        { type := ParamType.boolean } (some (some s))).isOk = true := by decide
  have hsub : (trueTokens ++ falseTokens).toFinset ⊆ nine := by
    intro s hs
    rw [List.mem_toFinset] at hs
    exact (hiff s).mp (hall s hs)
  have hten : (trueTokens ++ falseTokens).toFinset.card = 10 := by decide
  have hle := Finset.card_le_card hsub
  omega

theorem trueTokens_disjoint_falseTokens (x : String) :
    ¬(trueTokens.contains x = true ∧ falseTokens.contains x = true) := by
  rintro ⟨h1, h2⟩
  simp [trueTokens] at h1
  rcases h1 with rfl | rfl | rfl | rfl | rfl <;> revert h2 <;> decide

/-- C3 (amended): boolean coercion is case-insensitive and total over the
ten recognized tokens: a present raw string value whose lower-casing is
among the five true-tokens resolves the parameter to `true`, among the
five false-tokens to `false`, and any other raw value is the
`Invalid boolean value` error naming the parameter and the raw string. -/
theorem boolean_coercion_trichotomy (Num : Type) (parseNumber : String → Option Num)
    (params : Params Num) (name : String) (p : Parameter Num) (s : String)
    (hb : p.type = ParamType.boolean) :
    (trueTokens.contains (jsToLowerCase s) = true →
      (processParameter parseNumber params name p (some (some s))).isOk = true ∧
      ∀ m, processParameter parseNumber params name p (some (some s)) = Except.ok m →
        m.get name = some (Value.bool true)) ∧
    (falseTokens.contains (jsToLowerCase s) = true →
      (processParameter parseNumber params name p (some (some s))).isOk = true ∧
      ∀ m, processParameter parseNumber params name p (some (some s)) = Except.ok m →
        m.get name = some (Value.bool false)) ∧
    (trueTokens.contains (jsToLowerCase s) = false → falseTokens.contains (jsToLowerCase s) = false →
      processParameter parseNumber params name p (some (some s)) =
        Except.error ("Invalid boolean value provided for parameter " ++ name ++ ": " ++ s)) := by
  refine ⟨?_, ?_, ?_⟩
  · intro ht
    have htm : jsToLowerCase s ∈ trueTokens := by simpa using ht
    constructor
    · simp [processParameter, hb, htm, Except.isOk, Except.toBool]
    · intro m hm
      simp [processParameter, hb, htm] at hm
      subst hm
      exact JSObj.get_set_self _ _ _
  · intro hf
    have ht : trueTokens.contains (jsToLowerCase s) = false := by
      cases hc : trueTokens.contains (jsToLowerCase s) with
      | false => rfl
      | true => exact absurd ⟨hc, hf⟩ (trueTokens_disjoint_falseTokens _)
    have htm : jsToLowerCase s ∉ trueTokens := by simpa using ht
    have hfm : jsToLowerCase s ∈ falseTokens := by simpa using hf
    constructor
    · simp [processParameter, hb, htm, hfm, Except.isOk, Except.toBool]
    · intro m hm
      simp [processParameter, hb, htm, hfm] at hm
      subst hm
      exact JSObj.get_set_self _ _ _
  · intro ht hf
    have htm : jsToLowerCase s ∉ trueTokens := by simpa using ht
    have hfm : jsToLowerCase s ∉ falseTokens := by simpa using hf
    simp [processParameter, hb, htm, hfm]

/-- C3 witness: raw `"YES"` resolves a boolean parameter to `true`;
raw `"maybe"` is the boolean conversion error. -/
theorem boolean_coercion_trichotomy_witness :
    (processParameter (fun _ => (none : Option Int)) [] "p"
      { type := ParamType.boolean } (some (some "YES"))).isOk = true ∧
    JSObj.get [("p", (Value.bool true : Value Int))] "p" = some (Value.bool true) ∧
    processParameter (fun _ => (none : Option Int)) [] "p"
      { type := ParamType.boolean } (some (some "maybe")) =
      Except.error ("Invalid boolean value provided for parameter " ++ "p" ++ ": " ++ "maybe") := by
  refine ⟨?_, ?_, ?_⟩
  · exact ((boolean_coercion_trichotomy Int (fun _ => none) [] "p"
      { type := ParamType.boolean } "YES" rfl).1 (by decide)).1
  · exact ((boolean_coercion_trichotomy Int (fun _ => none) [] "p"
      { type := ParamType.boolean } "YES" rfl).1 (by decide)).2 [("p", Value.bool true)] rfl
  · exact (boolean_coercion_trichotomy Int (fun _ => none) [] "p"
      { type := ParamType.boolean } "maybe" rfl).2.2 (by decide) (by decide)

theorem processParameter_get_ne {Num : Type} (pN : String → Option Num) (params : Params Num)
    (name : String) (p : Parameter Num) (ra : Option (Option String)) (m : Params Num)
    (hok : processParameter pN params name p ra = Except.ok m) :
    ∀ a, a ≠ name → m.get a = params.get a := by
  intro a hne
  simp only [processParameter] at hok
  repeat' split at hok
  all_goals
    first
      | (simp only [Except.ok.injEq] at hok
         subst hok
         simp [JSObj.get_set_ne, hne])
      | simp at hok

theorem processParameter_keys {Num : Type} (pN : String → Option Num) (params : Params Num)
    (name : String) (p : Parameter Num) (ra : Option (Option String)) (m : Params Num)
    (hok : processParameter pN params name p ra = Except.ok m) :
    (∀ a, a ∈ m.keys → a ∈ params.keys ∨ a = name) ∧
    (∀ a, a ∈ params.keys → a ∈ m.keys) := by
  simp only [processParameter] at hok
  repeat' split at hok
  all_goals
    first
      | (simp only [Except.ok.injEq] at hok
         subst hok
         constructor
         · intro a ha
           try simp only [JSObj.mem_keys_set] at ha
           tauto
         · intro a ha
           try simp only [JSObj.mem_keys_set]
           tauto)
      | simp at hok

theorem processParameter_default_null {Num : Type} (pN : String → Option Num)
    (params : Params Num) (name : String) (p : Parameter Num)
    (hd : p.defaultValue = some Value.null) :
    ∃ m, processParameter pN params name p none = Except.ok m ∧
      m.get name = some Value.null := by
  refine ⟨(if p.type = ParamType.boolean then JSObj.set params name (Value.bool false)
    else params).set name Value.null, ?_, JSObj.get_set_self _ _ _⟩
  simp [processParameter, hd]

theorem resolveParams_cons_ok {Num : Type} {pN : String → Option Num} {raw : RawArgs}
    {n : String} {p : Parameter Num} {params updated : Params Num}
    (es : ParamsConfig Num) (missing : List String)
    (hpp : processParameter pN params n p (raw.get n) = Except.ok updated) :
    resolveParams pN ((n, p) :: es) raw params missing =
      resolveParams pN es raw updated
        (if (updated.get n).isNone then missing ++ [n] else missing) := by
  simp only [resolveParams, hpp]
  rfl

theorem resolveParams_cons_error {Num : Type} {pN : String → Option Num} {raw : RawArgs}
    {n : String} {p : Parameter Num} {params : Params Num} {err : String}
    (es : ParamsConfig Num) (missing : List String)
    (hpp : processParameter pN params n p (raw.get n) = Except.error err) :
    resolveParams pN ((n, p) :: es) raw params missing = Except.error err := by
  simp only [resolveParams, hpp]
  rfl

/-- The collected invariants of the per-parameter `filter` pass: keys of
the result come from the initial object or the processed entry names;
keys are never removed; the missing accumulator only grows, and grows
only by processed entry names; every processed entry name ends up either
as a key of the result or in the missing list; and entries whose name is
not processed keep their value. -/
theorem resolveParams_facts {Num : Type} (pN : String → Option Num) (raw : RawArgs) :
    ∀ (es : ParamsConfig Num) (params : Params Num) (missing : List String)
      (m : Params Num) (miss : List String),
      resolveParams pN es raw params missing = Except.ok (m, miss) →
      (∀ a, a ∈ m.keys → a ∈ params.keys ∨ a ∈ List.map Prod.fst es) ∧
      (∀ a, a ∈ params.keys → a ∈ m.keys) ∧
      (∀ x, x ∈ missing → x ∈ miss) ∧
      (∀ x, x ∈ miss → x ∈ missing ∨ x ∈ List.map Prod.fst es) ∧
      (∀ n q, (n, q) ∈ es → n ∈ m.keys ∨ n ∈ miss) ∧
      (∀ a, a ∉ List.map Prod.fst es → m.get a = params.get a) := by
  intro es
  induction es with
  | nil =>
    intro params missing m miss hok
    simp only [resolveParams, Except.ok.injEq, Prod.mk.injEq] at hok
    obtain ⟨rfl, rfl⟩ := hok
    exact ⟨fun a ha => Or.inl ha, fun a ha => ha, fun x hx => hx,
      fun x hx => Or.inl hx, fun n q h => absurd h (List.not_mem_nil _),
      fun a _ => rfl⟩
  | cons e es ih =>
    obtain ⟨n, q⟩ := e
    intro params missing m miss hok
    cases hpp : processParameter pN params n q (raw.get n) with
    | error err =>
      rw [resolveParams_cons_error es missing hpp] at hok
      cases hok
    | ok updated =>
      rw [resolveParams_cons_ok es missing hpp] at hok
      obtain ⟨f1, f2, f3, f4, f5, f6⟩ := ih updated
        (if (updated.get n).isNone then missing ++ [n] else missing) m miss hok
      obtain ⟨g1, g2⟩ := processParameter_keys pN params n q (raw.get n) updated hpp
      have g3 := processParameter_get_ne pN params n q (raw.get n) updated hpp
      refine ⟨?_, ?_, ?_, ?_, ?_, ?_⟩
      · intro a ha
        rcases f1 a ha with h | h
        · rcases g1 a h with h' | h'
          · exact Or.inl h'
          · exact Or.inr (by simp [h'])
        · exact Or.inr (by simp [h])
      · intro a ha
        exact f2 a (g2 a ha)
      · intro x hx
        apply f3
        split
        · exact List.mem_append_left _ hx
        · exact hx
      · intro x hx
        rcases f4 x hx with h | h
        · revert h
          split
          · intro h
            rcases List.mem_append.mp h with h' | h'
            · exact Or.inl h'
            · have hx' := List.mem_singleton.mp h'
              exact Or.inr (by simp [hx'])
          · intro h
            exact Or.inl h
        · exact Or.inr (by simp [h])
      · intro a r har
        rcases List.mem_cons.mp har with h | h
        · rw [Prod.mk.injEq] at h
          obtain ⟨h1, h2⟩ := h
          rw [h1]
          cases hu : (updated.get n).isNone with
          | true =>
            refine Or.inr (f3 n ?_)
            rw [hu]
            simp
          | false =>
            refine Or.inl (f2 n ?_)
            rw [← JSObj.get_isSome_iff]
            cases hg : updated.get n with
            | none =>
              rw [hg] at hu
              simp at hu
            | some v => rfl
        · exact f5 a r h
      · intro a ha
        have hane : a ≠ n := by
          intro h
          exact ha (by simp [h])
        have haes : a ∉ List.map Prod.fst es := by
          intro h
          exact ha (by simp [h])
        rw [f6 a haes, g3 a hane]

theorem resolveParams_append {Num : Type} (pN : String → Option Num) (raw : RawArgs)
    (es1 es2 : ParamsConfig Num) :
    ∀ (params : Params Num) (missing : List String),
      resolveParams pN (es1 ++ es2) raw params missing =
        (resolveParams pN es1 raw params missing).bind
          (fun r => resolveParams pN es2 raw r.1 r.2) := by
  induction es1 with
  | nil => intro params missing; rfl
  | cons e t ih =>
    obtain ⟨n, q⟩ := e
    intro params missing
    cases hpp : processParameter pN params n q (raw.get n) with
    | error err =>
      rw [List.cons_append, resolveParams_cons_error (t ++ es2) missing hpp,
        resolveParams_cons_error t missing hpp]
      rfl
    | ok updated =>
      rw [List.cons_append, resolveParams_cons_ok (t ++ es2) missing hpp,
        resolveParams_cons_ok t missing hpp, ih]

theorem getCommandParameters_ok_inv {Num : Type} (pN : String → Option Num)
    (config : ParamsConfig Num) (raw : RawArgs) (m : Params Num)
    (hok : getCommandParameters pN config raw = Except.ok m) :
    resolveParams pN config raw [] [] = Except.ok (m, []) := by
  cases hres : resolveParams pN config raw [] [] with
  | error e =>
    have : getCommandParameters pN config raw = Except.error e := by
      simp only [getCommandParameters, hres]
      rfl
    rw [this] at hok
    cases hok
  | ok r =>
    obtain ⟨m0, miss⟩ := r
    have hunf : getCommandParameters pN config raw =
        (if 0 < miss.length then
          Except.error ("Missing arguments: " ++ String.intercalate ", " miss)
        else if 0 < (raw.keys.filter
            (fun argName => !(List.map Prod.fst config).contains argName)).length then
          Except.error ("Unknown arguments: " ++ String.intercalate ", "
            (raw.keys.filter (fun argName => !(List.map Prod.fst config).contains argName)))
        else Except.ok m0) := by
      simp only [getCommandParameters, hres]
      rfl
    rw [hunf] at hok
    by_cases h1 : 0 < miss.length
    · rw [if_pos h1] at hok
      cases hok
    · rw [if_neg h1] at hok
      have hmiss : miss = [] :=
        List.eq_nil_of_length_eq_zero (Nat.eq_zero_of_not_pos h1)
      by_cases h2 : 0 < (raw.keys.filter
          (fun argName => !(List.map Prod.fst config).contains argName)).length
      · rw [if_pos h2] at hok
        cases hok
      · rw [if_neg h2] at hok
        have hm : m0 = m := by injection hok
        rw [hmiss, hm]

/-- C7: whenever resolution succeeds, the returned object's key set is
exactly the schema's declared parameter name set; and a parameter whose
`defaultValue` is the `null` optionality marker and which is absent from
the raw arguments resolves to that marker and is never recorded in the
missing list. -/
theorem getCommandParameters_exact_keys (Num : Type) (pN : String → Option Num)
    (config : ParamsConfig Num) (raw : RawArgs) :
    (∀ m, getCommandParameters pN config raw = Except.ok m →
      ∀ a, a ∈ JSObj.keys m ↔ a ∈ List.map Prod.fst config) ∧
    (∀ name p m miss, (List.map Prod.fst config).Nodup → (name, p) ∈ config →
      p.defaultValue = some Value.null → raw.get name = none →
      resolveParams pN config raw [] [] = Except.ok (m, miss) →
      name ∉ miss ∧ m.get name = some Value.null) := by
  constructor
  · intro m hok a
    have hres := getCommandParameters_ok_inv pN config raw m hok
    obtain ⟨f1, _, _, _, f5, _⟩ := resolveParams_facts pN raw config [] [] m [] hres
    constructor
    · intro ha
      rcases f1 a ha with h | h
      · simp [JSObj.keys] at h
      · exact h
    · intro ha
      obtain ⟨⟨n, q⟩, hmem, rfl⟩ := List.mem_map.mp ha
      rcases f5 n q hmem with h | h
      · exact h
      · exact absurd h (List.not_mem_nil _)
  · intro name p m miss hnodup hmem hd hraw hres
    obtain ⟨pre, post, rfl⟩ := List.append_of_mem hmem
    have hmap : List.map Prod.fst (pre ++ (name, p) :: post) =
        List.map Prod.fst pre ++ name :: List.map Prod.fst post := by simp
    rw [hmap, List.nodup_append] at hnodup
    obtain ⟨-, hnd2, hdisj⟩ := hnodup
    have hnpost : name ∉ List.map Prod.fst post := (List.nodup_cons.mp hnd2).1
    have hnpre : name ∉ List.map Prod.fst pre :=
      fun hin => hdisj hin (List.mem_cons_self _ _)
    rw [resolveParams_append] at hres
    cases h1 : resolveParams pN pre raw [] [] with
    | error e =>
      rw [h1] at hres
      cases hres
    | ok r1 =>
      obtain ⟨m1, miss1⟩ := r1
      rw [h1] at hres
      have hres' : resolveParams pN ((name, p) :: post) raw m1 miss1 =
          Except.ok (m, miss) := hres
      obtain ⟨-, -, -, p4, -, -⟩ := resolveParams_facts pN raw pre [] [] m1 miss1 h1
      have hnm1 : name ∉ miss1 := by
        intro hin
        rcases p4 name hin with h | h
        · exact List.not_mem_nil _ h
        · exact hnpre h
      obtain ⟨m2, hm2, hm2get⟩ := processParameter_default_null pN m1 name p hd
      have hpp : processParameter pN m1 name p (raw.get name) = Except.ok m2 := by
        rw [hraw]
        exact hm2
      rw [resolveParams_cons_ok post miss1 hpp] at hres'
      have hnotNone : (m2.get name).isNone = false := by
        rw [hm2get]
        rfl
      rw [hnotNone] at hres'
      simp only [Bool.false_eq_true, if_false] at hres'
      obtain ⟨-, -, -, q4, -, q6⟩ := resolveParams_facts pN raw post m2 miss1 m miss hres'
      constructor
      · intro hin
        rcases q4 name hin with h | h
        · exact hnm1 h
        · exact hnpost h
      · rw [q6 name hnpost, hm2get]

/-- C7 witness: a two-parameter schema where `a` is optional via a `null`
default and absent from the raw arguments: resolution succeeds, the
result's keys are exactly the declared names, `a` is not missing and
resolves to the `null` marker. -/
theorem getCommandParameters_exact_keys_witness :
    (("a" ∈ JSObj.keys [("a", (Value.null : Value Int)), ("b", Value.str "x")]) ↔
      "a" ∈ List.map Prod.fst
        [("a", ({ type := ParamType.string, defaultValue := some Value.null } : Parameter Int)),
         ("b", { type := ParamType.string })]) ∧
    ("a" ∉ ([] : List String) ∧
      JSObj.get [("a", (Value.null : Value Int)), ("b", Value.str "x")] "a" =
        some Value.null) := by
  constructor
  · exact (getCommandParameters_exact_keys Int (fun _ => none)
      [("a", { type := ParamType.string, defaultValue := some Value.null }),
       ("b", { type := ParamType.string })] [("b", some "x")]).1
      [("a", Value.null), ("b", Value.str "x")] rfl "a"
  · exact (getCommandParameters_exact_keys Int (fun _ => none)
      [("a", { type := ParamType.string, defaultValue := some Value.null }),
       ("b", { type := ParamType.string })] [("b", some "x")]).2
      "a" { type := ParamType.string, defaultValue := some Value.null }
      [("a", Value.null), ("b", Value.str "x")] [] (by decide)
      (List.mem_cons_self _ _) rfl rfl rfl

theorem except_ok_bind {ε α β : Type} (a : α) (f : α → Except ε β) :
    (Except.ok a : Except ε α).bind f = f a := rfl

theorem except_error_bind {ε α β : Type} (e : ε) (f : α → Except ε β) :
    (Except.error e : Except ε α).bind f = Except.error e := rfl

theorem except_error_eq_iff {α β : Type} (e0 e : String) :
    ((Except.error e0 : Except String α) = Except.error e) ↔
      ((Except.error e0 : Except String β) = Except.error e) := by
  constructor <;> intro h <;> (injection h with h'; rw [h'])

/-- Registries that agree on names and parameter schemas (but may differ
in handlers, result types and descriptions) find entries with the same
parameter schema at every name. -/
theorem configs_find_correspond {Num R₁ R₂ : Type}
    (cs₁ : CommandConfigs Num R₁) (cs₂ : CommandConfigs Num R₂)
    (hsame : List.map (fun q => (q.1, q.2.parameters)) cs₁ =
      List.map (fun q => (q.1, q.2.parameters)) cs₂) (name : String) :
    (List.find? (fun q => q.1 == name) cs₁).map (fun q => q.2.parameters) =
      (List.find? (fun q => q.1 == name) cs₂).map (fun q => q.2.parameters) := by
  induction cs₁ generalizing cs₂ with
  | nil =>
    have h2 : cs₂ = [] := by
      cases cs₂ with
      | nil => rfl
      | cons b t => simp at hsame
    subst h2
    rfl
  | cons a t ih =>
    cases cs₂ with
    | nil => simp at hsame
    | cons b t₂ =>
      simp only [List.map_cons, List.cons.injEq, Prod.mk.injEq] at hsame
      obtain ⟨⟨hn, hp⟩, ht⟩ := hsame
      by_cases hname : a.1 = name
      · have hbname : b.1 = name := hn.symm.trans hname
        simp [List.find?, hname, hbname, hp]
      · have h1 : (a.1 == name) = false := by simp [hname]
        have hb : ¬b.1 = name := fun h => hname (hn.trans h)
        have h2 : (b.1 == name) = false := by simp [hb]
        simp only [List.find?, h1, h2]
        exact ih t₂ ht

/-- C8: the dispatch pipeline never consults the handlers: two registries
agreeing on names and parameter schemas produce exactly the same errors
(so every command-name, tokenizing, coercion or validation error aborts
dispatch before any handler could be invoked), and on success the
returned executable is the zero-argument binding of the looked-up
handler to the fully resolved parameters — the handler itself is not
invoked by the pipeline. -/
theorem getCommandExecutable_handler_independent {Num R₁ R₂ : Type}
    (pN : String → Option Num)
    (configs₁ : CommandConfigs Num R₁) (configs₂ : CommandConfigs Num R₂)
    (hsame : List.map (fun q => (q.1, q.2.parameters)) configs₁ =
      List.map (fun q => (q.1, q.2.parameters)) configs₂) (argv : List String) :
    (∀ e, getCommandExecutable pN configs₁ argv = Except.error e ↔
      getCommandExecutable pN configs₂ argv = Except.error e) ∧
    (∀ f, getCommandExecutable pN configs₁ argv = Except.ok f →
      ∃ commandName commandConfig rawArguments commandParameters,
        getCommandName argv = Except.ok commandName ∧
        getCommandConfig configs₁ commandName = Except.ok commandConfig ∧
        getRawArguments (getCommandLineArguments argv commandName) =
          Except.ok rawArguments ∧
        getCommandParameters pN commandConfig.parameters rawArguments =
          Except.ok commandParameters ∧
        f = fun _ => commandConfig.command commandParameters) := by
  cases hn : getCommandName argv with
  | error e0 =>
    have h₁ : getCommandExecutable pN configs₁ argv = Except.error e0 := by
      simp only [getCommandExecutable, hn]
      rfl
    have h₂ : getCommandExecutable pN configs₂ argv = Except.error e0 := by
      simp only [getCommandExecutable, hn]
      rfl
    constructor
    · intro e
      rw [h₁, h₂]
      exact except_error_eq_iff e0 e
    · intro f hf
      rw [h₁] at hf
      cases hf
  | ok name =>
    have hstep₁ : getCommandExecutable pN configs₁ argv =
        (getCommandConfig configs₁ name).bind (fun commandConfig =>
          (getRawArguments (getCommandLineArguments argv name)).bind (fun rawArguments =>
            (getCommandParameters pN commandConfig.parameters rawArguments).bind
              (fun commandParameters =>
                Except.ok (fun _ => commandConfig.command commandParameters)))) := by
      simp only [getCommandExecutable, hn]
      rfl
    have hstep₂ : getCommandExecutable pN configs₂ argv =
        (getCommandConfig configs₂ name).bind (fun commandConfig =>
          (getRawArguments (getCommandLineArguments argv name)).bind (fun rawArguments =>
            (getCommandParameters pN commandConfig.parameters rawArguments).bind
              (fun commandParameters =>
                Except.ok (fun _ => commandConfig.command commandParameters)))) := by
      simp only [getCommandExecutable, hn]
      rfl
    have hfind := configs_find_correspond configs₁ configs₂ hsame name
    cases hf₁ : List.find? (fun q => q.1 == name) configs₁ with
    | none =>
      have hf₂ : List.find? (fun q => q.1 == name) configs₂ = none := by
        rw [hf₁] at hfind
        exact Option.map_eq_none'.mp hfind.symm
      have hc₁ : getCommandConfig configs₁ name =
          Except.error ("Unknown command: " ++ name) := by
        simp only [getCommandConfig, hf₁]
        rfl
      have hc₂ : getCommandConfig configs₂ name =
          Except.error ("Unknown command: " ++ name) := by
        simp only [getCommandConfig, hf₂]
        rfl
      rw [hc₁, except_error_bind] at hstep₁
      rw [hc₂, except_error_bind] at hstep₂
      constructor
      · intro e
        rw [hstep₁, hstep₂]
        exact except_error_eq_iff _ e
      · intro f hf
        rw [hstep₁] at hf
        cases hf
    | some q₁ =>
      obtain ⟨q₂, hf₂, hq⟩ : ∃ q₂, List.find? (fun q => q.1 == name) configs₂ = some q₂ ∧
          q₁.2.parameters = q₂.2.parameters := by
        rw [hf₁] at hfind
        cases hf₂ : List.find? (fun q => q.1 == name) configs₂ with
        | none =>
          rw [hf₂] at hfind
          cases hfind
        | some q₂ =>
          rw [hf₂] at hfind
          exact ⟨q₂, rfl, by injection hfind⟩
      have hc₁ : getCommandConfig configs₁ name = Except.ok q₁.2 := by
        simp only [getCommandConfig, hf₁]
        rfl
      have hc₂ : getCommandConfig configs₂ name = Except.ok q₂.2 := by
        simp only [getCommandConfig, hf₂]
        rfl
      rw [hc₁, except_ok_bind] at hstep₁
      rw [hc₂, except_ok_bind] at hstep₂
      cases hr : getRawArguments (getCommandLineArguments argv name) with
      | error er =>
        rw [hr, except_error_bind] at hstep₁ hstep₂
        constructor
        · intro e
          rw [hstep₁, hstep₂]
          exact except_error_eq_iff _ e
        · intro f hf
          rw [hstep₁] at hf
          cases hf
      | ok raw =>
        rw [hr, except_ok_bind] at hstep₁ hstep₂
        rw [← hq] at hstep₂
        cases hp : getCommandParameters pN q₁.2.parameters raw with
        | error ep =>
          rw [hp, except_error_bind] at hstep₁ hstep₂
          constructor
          · intro e
            rw [hstep₁, hstep₂]
            exact except_error_eq_iff _ e
          · intro f hf
            rw [hstep₁] at hf
            cases hf
        | ok params =>
          rw [hp, except_ok_bind] at hstep₁ hstep₂
          constructor
          · intro e
            rw [hstep₁, hstep₂]
            constructor <;> intro h <;> cases h
          · intro f hf
            rw [hstep₁] at hf
            refine ⟨name, q₁.2, raw, params, rfl, hc₁, hr, hp, ?_⟩
            injection hf with h
            exact h.symm

/-- C8 witness: two registries identical up to the handler (one returns a
number, the other a string) fail identically on a malformed vector; the
error arises before any handler is consulted. -/
theorem getCommandExecutable_handler_independent_witness :
    getCommandExecutable (fun _ => (none : Option Int))
      [("default", { parameters := [("x", { type := ParamType.string })],
                     command := fun _ => "done" })] ["node", "bin", "--bad!"] =
      Except.error "No command name provided." :=
  ((getCommandExecutable_handler_independent (fun _ => none)
    [("default", { parameters := [("x", { type := ParamType.string })],
                   command := fun _ => (0 : Nat) })]
    [("default", { parameters := [("x", { type := ParamType.string })],
                   command := fun _ => "done" })]
    rfl ["node", "bin", "--bad!"]).1 "No command name provided.").mp rfl

/-- C9: dispatch never inspects the 0th and 1st slots of the argument
vector: two vectors agreeing from index 2 on resolve the same command
name, slice the same remaining arguments, and produce the same dispatch
outcome. -/
theorem dispatch_ignores_leading_slots {Num R : Type} (pN : String → Option Num)
    (configs : CommandConfigs Num R) (argv₁ argv₂ : List String)
    (h : argv₁.drop 2 = argv₂.drop 2) :
    getCommandName argv₁ = getCommandName argv₂ ∧
    (∀ name, getCommandLineArguments argv₁ name = getCommandLineArguments argv₂ name) ∧
    getCommandExecutable pN configs argv₁ = getCommandExecutable pN configs argv₂ := by
  have h2 : argv₁.get? 2 = argv₂.get? 2 := by
    rw [List.get?_eq_head?_drop, List.get?_eq_head?_drop, h]
  have hname : getCommandName argv₁ = getCommandName argv₂ := by
    simp only [getCommandName]
    rw [h2]
  have hargs : ∀ name, getCommandLineArguments argv₁ name = getCommandLineArguments argv₂ name := by
    intro name
    have h3 : argv₁.drop 3 = argv₂.drop 3 := by
      have ht := congrArg List.tail h
      rw [← List.drop_succ_eq_tail_drop, ← List.drop_succ_eq_tail_drop] at ht
      simpa using ht
    simp only [getCommandLineArguments]
    split
    · exact h
    · exact h3
  refine ⟨hname, hargs, ?_⟩
  simp only [getCommandExecutable, hname, hargs]

/-- C9 witness: changing the two leading slots leaves the resolved name
and the dispatch outcome unchanged. -/
theorem dispatch_ignores_leading_slots_witness :
    getCommandName ["a", "b", "greet"] = getCommandName ["c", "d", "greet"] ∧
    getCommandExecutable (fun _ => none)
      ([] : CommandConfigs Int Nat) ["a", "b", "greet"] =
      getCommandExecutable (fun _ => none) ([] : CommandConfigs Int Nat) ["c", "d", "greet"] := by
  obtain ⟨h1, -, h3⟩ := dispatch_ignores_leading_slots (fun _ => none)
    ([] : CommandConfigs Int Nat) ["a", "b", "greet"] ["c", "d", "greet"] rfl
  exact ⟨h1, h3⟩

end Command
